import Mathlib

/-! Shallow embedding of `src/streamlit_app.py` (DehanVithana/PDF2Excel):
the table-normalization, header-inference, scan-detection and sheet-naming
pipeline of the PDF-to-Excel converter, together with proofs of the
specification's claims about it.

A table cell coming out of the PDF extractor is either a string or the
Python value `None`; it is modelled as `Option String`.  The external
float parser consulted by `is_number` (Python's `float` builtin) is kept
abstract: every definition and theorem is parametric in a predicate
`pyFloat : String → Bool` telling which strings parse as a float
(`float(...)` raising is `pyFloat` answering `false`). -/

/-- Table cells: a string or Python `None`. -/
abbrev Cell := Option String

/-- Truth value of the Python test `cell not in (None, "")`. -/
def cellFilled : Cell → Bool
  | none => false
  | some s => !(s == "")

/-- Python `str(x)` on a cell: `str(None)` is the four-letter string. -/
def pyStrCell : Cell → String
  | none => "None"
  | some s => s

/-- The helper `is_number` inside `infer_header_row` (source lines 32-37):
`float(str(x).replace(",", ""))` succeeds.  Replacing every `","` by the
empty string is the same as filtering the commas out of the characters. -/
def is_number (pyFloat : String → Bool) (x : Cell) : Bool :=
  pyFloat (String.mk ((pyStrCell x).data.filter (fun c => !(c == ','))))

/-- Header inference `infer_header_row` (source lines 24-44).  The source
computes `numeric_ratio = count / max(1, len(remaining))` and compares it
with `0.15`; as an exact comparison of rationals this is the integer
inequality `20 * count > 3 * max 1 len`, which is how it is written here
(Python evaluates the same rational value in double precision, which
agrees with the exact comparison for every remotely reachable pool size). -/
def infer_header_row (pyFloat : String → Bool) (rows : List (List Cell)) : Option Nat :=
  if rows = [] then none
  else if rows.headD [] = [] then none
  else
    let first := rows.headD []
    let first_all_str := first.all (fun x => (x == none) || !(is_number pyFloat x))
    if !first_all_str then none
    else
      let remaining := ((rows.drop 1).map (fun row => row.filter cellFilled)).flatten
      if 20 * remaining.countP (is_number pyFloat) > 3 * max 1 remaining.length then some 0
      else none

/-- Row/column normalization `clean_table_data` (source lines 46-65):
drop all-empty rows, right-pad the survivors to the maximal surviving
length, drop all-empty columns. -/
def clean_table_data (rows : List (List Cell)) : List (List Cell) :=
  if rows = [] then rows
  else
    let rows1 := rows.filter (fun row => row.any cellFilled)
    if rows1 = [] then rows1
    else
      let max_len := rows1.foldl (fun m r => max m r.length) 0
      let rows2 := rows1.map (fun r => r ++ List.replicate (max_len - r.length) (none : Cell))
      let cols_to_keep :=
        (List.range max_len).filter (fun c => rows2.any (fun row => cellFilled (row.getD c none)))
      rows2.map (fun row => cols_to_keep.map (fun c => row.getD c none))

/-- The column indices `clean_table_data` keeps: the positions below the
maximal surviving-row length at which some surviving row has a filled
cell (stated over the unpadded surviving rows; padding cells are `none`,
so the two readings pick the same indices). -/
def keptColumns (rows : List (List Cell)) : List Nat :=
  let rows1 := rows.filter (fun row => row.any cellFilled)
  let max_len := rows1.foldl (fun m r => max m r.length) 0
  (List.range max_len).filter (fun c => rows1.any (fun row => cellFilled (row.getD c none)))

/-- The characters `: \ / ? * [ ]` that the regex of source line 20
replaces by a space. -/
def isBadChar (c : Char) : Bool :=
  c == ':' || c == '\\' || c == '/' || c == '?' || c == '*' || c == '[' || c == ']'

/-- Python's regex class `\s` restricted to the ASCII whitespace
characters (the Unicode-only whitespace code points never reach the
sheet-name candidates this program builds). -/
def pyIsSpace (c : Char) : Bool :=
  c == ' ' || c == '\t' || c == '\n' || c == '\r' || c == '\x0b' || c == '\x0c'

/-- One pass of `re.sub(r'\s+', ' ', name)`: every maximal run of
whitespace becomes one space.  The flag records whether the previous
character belonged to a whitespace run. -/
def collapseWsAux : Bool → List Char → List Char
  | _, [] => []
  | prevWs, c :: cs =>
    if pyIsSpace c then
      if prevWs then collapseWsAux true cs else ' ' :: collapseWsAux true cs
    else c :: collapseWsAux false cs

/-- Python `str.strip()`: drop leading and trailing whitespace. -/
def pyStrip (l : List Char) : List Char :=
  ((l.dropWhile pyIsSpace).reverse.dropWhile pyIsSpace).reverse

/-- `sanitize_sheet_name` (source lines 16-22): replace the forbidden
characters by spaces, collapse whitespace runs, strip, truncate to 31
characters, and fall back to "Sheet" when nothing is left. -/
def sanitize_sheet_name (s : String) : String :=
  let replaced := s.data.map (fun c => if isBadChar c then ' ' else c)
  let cleaned := pyStrip (collapseWsAux false replaced)
  if cleaned = [] then "Sheet" else String.mk (cleaned.take 31)

/-- Decimal digit `d < 10` as a character. -/
def digitChar (d : Nat) : Char :=
  if d = 0 then '0' else if d = 1 then '1' else if d = 2 then '2'
  else if d = 3 then '3' else if d = 4 then '4' else if d = 5 then '5'
  else if d = 6 then '6' else if d = 7 then '7' else if d = 8 then '8' else '9'

/-- Least-significant-first decimal digits of the second argument, with
explicit structural fuel in the first (`fuel ≥ n` is always enough). -/
def digitsRevAux : Nat → Nat → List Nat
  | 0, _ => []
  | _, 0 => []
  | fuel + 1, n + 1 => ((n + 1) % 10) :: digitsRevAux fuel ((n + 1) / 10)

/-- Python `str(n)` on a non-negative integer: its decimal digits. -/
def pyStrNat (n : Nat) : String :=
  if n = 0 then "0" else String.mk ((digitsRevAux n n).reverse.map digitChar)

/-- The sheet-name de-duplication `while` loop (source lines 126-130),
with explicit fuel.  The loop state is the pending suffix and the current
candidate; `none` means the loop is still running when the fuel runs out. -/
def uniqueLoop (existing : List String) (base : String) : Nat → Nat → String → Option String
  | 0, _, _ => none
  | fuel + 1, suffix, sheet =>
    if sheet ∈ existing then
      uniqueLoop existing base fuel (suffix + 1)
        (sanitize_sheet_name (base ++ "_" ++ pyStrNat suffix))
    else some sheet

/-- Outcome of calling one accessor of the external pdfplumber page
object: a value, or a raised exception. -/
inductive PyRes (α : Type) where
  | ok (val : α)
  | err
deriving DecidableEq

/-- The slice of a pdfplumber page that the converter consumes.  A null
list / null text returned by an accessor is modelled as the empty list /
empty string (the code's `or []` / `or ""` coalescing makes the two
indistinguishable).  `find_tables` bundles `page.find_tables()` together
with the `t.extract()` calls performed inside the same `try` block. -/
structure PdfPage where
  find_tables : PyRes (List (List (List Cell)))
  extract_tables : PyRes (List (List (List Cell)))
  extract_text : PyRes String
  extract_words : PyRes (List String)
  images : PyRes (List Unit)
deriving DecidableEq

/-- Scan heuristic `looks_scanned` (source lines 67-76).  Python's `and`
short-circuits, so `page.images` is consulted only when the word list is
empty; any exception inside the `try` yields `False`. -/
def looks_scanned (page : PdfPage) : Bool :=
  match page.extract_words with
  | .err => false
  | .ok words =>
    if words.length == 0 then
      match page.images with
      | .err => false
      | .ok imgs => decide (0 < imgs.length)
    else false

/-- Per-page table extraction with primary/secondary fallback (source
lines 99-107): `find_tables` first, `extract_tables` on failure, the
empty list when both raise. -/
def pageTables (page : PdfPage) : List (List (List Cell)) :=
  match page.find_tables with
  | .ok ts => ts
  | .err =>
    match page.extract_tables with
    | .ok ts => ts
    | .err => []

/-- Page text extraction with its local `try` (source lines 138-141). -/
def pageText (page : PdfPage) : String :=
  match page.extract_text with
  | .ok t => t
  | .err => ""

/-- Python `str.splitlines()` restricted to the line breaks `\n`, `\r\n`
and `\r`.  The accumulator holds the current line, reversed. -/
def splitlinesAux : List Char → List Char → List String
  | acc, [] => if acc = [] then [] else [String.mk acc.reverse]
  | acc, '\r' :: '\n' :: rest => String.mk acc.reverse :: splitlinesAux [] rest
  | acc, '\r' :: rest => String.mk acc.reverse :: splitlinesAux [] rest
  | acc, '\n' :: rest => String.mk acc.reverse :: splitlinesAux [] rest
  | acc, c :: rest => splitlinesAux (c :: acc) rest

/-- Python `txt.splitlines()`. -/
def pySplitlines (s : String) : List String := splitlinesAux [] s.data

/-- The text rows a zero-table page contributes (source lines 137-145):
every non-blank line of the page text, trimmed, tagged with the 1-based
page number; nothing when the whole text strips to empty. -/
def textLines (pageIdx : Nat) (txt : String) : List (Nat × String) :=
  if pyStrip txt.data = [] then []
  else
    (pySplitlines txt).filterMap (fun line =>
      let t := pyStrip line.data
      if t = [] then none else some (pageIdx, String.mk t))

/-- Content of one sheet of the output workbook, as handed to
`to_excel`: a dataframe built from a table (with optional header
labels), the text fallback dataframe of (Page, Text) rows, or the OCR
info dataframe. -/
inductive SheetData where
  | table (labels : Option (List String)) (rowsData : List (List Cell))
  | text (rowsData : List (Option Nat × String))
  | info (note : String) (pages : String)
deriving DecidableEq

/-- The converter's accumulator state (source lines 89-92, plus the
workbook's ordered sheets). -/
structure ConvSt where
  sheets : List (String × SheetData)
  ocr_pages : List Nat
  tables_found : Nat
  text_rows : List (Nat × String)
deriving DecidableEq

/-- The state at entry of `convert_pdf_to_excel_bytes`. -/
def initSt : ConvSt := ⟨[], [], 0, []⟩

/-- The noise filter of source line 113: a cleaned grid is discarded
when it is empty or is a single row with at most one column. -/
def degenerateGrid (rows : List (List Cell)) : Bool :=
  rows.isEmpty || (rows.length == 1 && decide ((rows.headD []).length ≤ 1))

/-- The dataframe built for one surviving grid (source lines 116-122):
labeled by the header row when one is inferred (a `None` label becomes
the empty string), positional otherwise. -/
def buildSheetData (pyFloat : String → Bool) (rows : List (List Cell)) : SheetData :=
  match infer_header_row pyFloat rows with
  | some h =>
    SheetData.table
      (some ((rows.getD h []).map (fun c => match c with | some s => s | none => "")))
      (rows.drop (h + 1))
  | none => SheetData.table none rows

/-- The per-page table loop (source lines 110-134): clean each raw
table, skip noise, infer a header, assign a unique sheet name and append
the sheet.  Returns the updated state and the page's surviving-table
count; `none` propagates fuel exhaustion of the naming loop. -/
def tablesLoop (pyFloat : String → Bool) (fuel pageIdx : Nat) :
    List (List (List Cell)) → ConvSt → Nat → Option (ConvSt × Nat)
  | [], st, cnt => some (st, cnt)
  | raw :: rest, st, cnt =>
    let rows := clean_table_data raw
    if degenerateGrid rows then tablesLoop pyFloat fuel pageIdx rest st cnt
    else
      let base := sanitize_sheet_name ("p" ++ pyStrNat pageIdx ++ "_tbl" ++ pyStrNat (cnt + 1))
      match uniqueLoop (st.sheets.map Prod.fst) base fuel 2 base with
      | none => none
      | some sheet =>
        tablesLoop pyFloat fuel pageIdx rest
          { st with sheets := st.sheets ++ [(sheet, buildSheetData pyFloat rows)],
                    tables_found := st.tables_found + 1 }
          (cnt + 1)

/-- Processing of one page: the body of the `for page ...` loop (source
lines 97-147). -/
def pageStep (pyFloat : String → Bool) (fuel pageIdx : Nat) (page : PdfPage) (st : ConvSt) :
    Option ConvSt :=
  match tablesLoop pyFloat fuel pageIdx (pageTables page) st 0 with
  | none => none
  | some (st1, cnt) =>
    if cnt = 0 then
      let st2 := { st1 with text_rows := st1.text_rows ++ textLines pageIdx (pageText page) }
      some (if looks_scanned page then { st2 with ocr_pages := st2.ocr_pages ++ [pageIdx] } else st2)
    else some st1

/-- The page loop, pages numbered from 1 (`enumerate(pdf.pages, start=1)`). -/
def pageLoop (pyFloat : String → Bool) (fuel : Nat) :
    List PdfPage → Nat → ConvSt → Option ConvSt
  | [], _, st => some st
  | page :: rest, pageIdx, st =>
    match pageStep pyFloat fuel pageIdx page st with
    | none => none
    | some st1 => pageLoop pyFloat fuel rest (pageIdx + 1) st1

/-- Python's string join `", ".join(...)`. -/
def commaJoin : List String → String
  | [] => ""
  | [s] => s
  | s :: rest => s ++ ", " ++ commaJoin rest

/-- The OCR info sheet (source lines 159-164). -/
def infoSheet (ocr_pages : List Nat) : SheetData :=
  SheetData.info "Some pages appear scanned (image-only). OCR recommended."
    (commaJoin (ocr_pages.map pyStrNat))

/-- The placeholder row written when nothing at all was extracted
(source line 155). -/
def placeholderRow : Option Nat × String := (none, "No extractable content found.")

/-- Document-level finalization (source lines 149-164): the text
fallback sheet when no tables were found anywhere, then the Info sheet
when some page looked scanned. -/
def finalizeSheets (st : ConvSt) : List (String × SheetData) :=
  let withText :=
    if st.tables_found = 0 then
      if st.text_rows ≠ [] then
        st.sheets ++ [("Text", SheetData.text (st.text_rows.map (fun r => (some r.1, r.2))))]
      else st.sheets ++ [("Text", SheetData.text [placeholderRow])]
    else st.sheets
  if st.ocr_pages ≠ [] then withText ++ [("Info", infoSheet st.ocr_pages)] else withText

/-- `convert_pdf_to_excel_bytes` (source lines 82-167), up to workbook
serialization: the ordered list of named sheets of the produced
workbook.  `fuel` bounds every run of the sheet-naming `while` loop;
`none` reports a run that exceeded it. -/
def convert_pdf_to_excel_bytes (pyFloat : String → Bool) (fuel : Nat) (pages : List PdfPage) :
    Option (List (String × SheetData)) :=
  match pageLoop pyFloat fuel pages 1 initSt with
  | none => none
  | some st => some (finalizeSheets st)

/-- The header rule exactly as claim C2 words it, with no guard for an
empty grid or an empty first row: "none" when some (present) cell of row
0 is numeric, otherwise row 0 exactly when the numeric ratio of the
pooled body cells exceeds 0.15 (an empty pool has ratio 0; for a
non-empty pool `ratio > 0.15` is the exact integer inequality
`20 * count > 3 * size`). -/
def headerRuleC2 (pyFloat : String → Bool) (rows : List (List Cell)) : Option Nat :=
  let row0 := rows.headD []
  if row0.any (fun x => !(x == none) && is_number pyFloat x) then none
  else
    let pool := ((rows.drop 1).map (fun row => row.filter cellFilled)).flatten
    if pool = [] then none
    else if 20 * pool.countP (is_number pyFloat) > 3 * pool.length then some 0 else none

/-! Lemmas about the sheet-name sanitizer. -/

/-- Every character of a collapsed string is a space or came from the input. -/
theorem mem_of_collapseWs : ∀ (l : List Char) (b : Bool) (c : Char),
    c ∈ collapseWsAux b l → c = ' ' ∨ c ∈ l := by
  intro l
  induction l with
  | nil => intro b c h; simp [collapseWsAux] at h
  | cons x cs ih =>
    intro b c h
    unfold collapseWsAux at h
    by_cases hx : pyIsSpace x = true
    · rw [if_pos hx] at h
      cases b with
      | true =>
        rcases ih true c h with h1 | h1
        · exact Or.inl h1
        · exact Or.inr (List.mem_cons_of_mem x h1)
      | false =>
        rcases List.mem_cons.mp h with h1 | h1
        · exact Or.inl h1
        · rcases ih true c h1 with h2 | h2
          · exact Or.inl h2
          · exact Or.inr (List.mem_cons_of_mem x h2)
    · rw [if_neg hx] at h
      rcases List.mem_cons.mp h with h1 | h1
      · exact Or.inr (h1 ▸ List.mem_cons_self x cs)
      · rcases ih false c h1 with h2 | h2
        · exact Or.inl h2
        · exact Or.inr (List.mem_cons_of_mem x h2)

/-- Stripping only removes characters. -/
theorem mem_of_pyStrip {l : List Char} {c : Char} (h : c ∈ pyStrip l) : c ∈ l := by
  unfold pyStrip at h
  rw [List.mem_reverse] at h
  have h1 := (List.dropWhile_sublist pyIsSpace).mem h
  rw [List.mem_reverse] at h1
  exact (List.dropWhile_sublist pyIsSpace).mem h1

/-- The replacement pass of `sanitize_sheet_name` leaves no forbidden character. -/
theorem replaced_no_bad {s : String} {c : Char}
    (h : c ∈ s.data.map (fun c => if isBadChar c then ' ' else c)) : isBadChar c = false := by
  rcases List.mem_map.mp h with ⟨a, _, ha⟩
  by_cases hb : isBadChar a = true
  · rw [if_pos hb] at ha; rw [← ha]; decide
  · rw [if_neg hb] at ha; rw [← ha]; exact Bool.eq_false_iff.mpr hb

/-- Claim C6: the sanitizer always returns a valid sheet name — at most 31
characters, non-empty, and free of the characters `: \ / ? * [ ]`. -/
theorem sanitize_sheet_name_valid (s : String) :
    (sanitize_sheet_name s).length ≤ 31 ∧ sanitize_sheet_name s ≠ "" ∧
    ∀ c ∈ (sanitize_sheet_name s).data, isBadChar c = false := by
  unfold sanitize_sheet_name
  by_cases h : pyStrip (collapseWsAux false (s.data.map (fun c => if isBadChar c then ' ' else c))) = []
  · rw [if_pos h]
    refine ⟨by decide, by decide, ?_⟩
    decide
  · rw [if_neg h]
    refine ⟨?_, ?_, ?_⟩
    · show (List.take 31 _).length ≤ 31
      rw [List.length_take]
      exact min_le_left _ _
    · intro he
      have : List.take 31 (pyStrip (collapseWsAux false
          (s.data.map (fun c => if isBadChar c then ' ' else c)))) = [] := congrArg String.data he
      rcases List.take_eq_nil_iff.mp this with h31 | hnil
      · exact absurd h31 (by decide)
      · exact h hnil
    · intro c hc
      have hc1 : c ∈ pyStrip (collapseWsAux false
          (s.data.map (fun x => if isBadChar x then ' ' else x))) :=
        (List.take_sublist 31 _).mem hc
      have hc2 := mem_of_pyStrip hc1
      rcases mem_of_collapseWs _ false c hc2 with h1 | h1
      · rw [h1]; decide
      · exact replaced_no_bad h1

/-- Witness for C6 at the spec's own example input. -/
theorem sanitize_sheet_name_valid_witness :
    (sanitize_sheet_name "Revenue: Q1/Q2 [Final]").length ≤ 31 ∧
    sanitize_sheet_name "Revenue: Q1/Q2 [Final]" ≠ "" ∧
    isBadChar 'R' = false :=
  ⟨(sanitize_sheet_name_valid "Revenue: Q1/Q2 [Final]").1,
   (sanitize_sheet_name_valid "Revenue: Q1/Q2 [Final]").2.1,
   (sanitize_sheet_name_valid "Revenue: Q1/Q2 [Final]").2.2 'R' (by decide)⟩

/-! Lemmas about the row/column normalizer. -/

/-- The padding cell lookup: right-padding with `none` is invisible to
`getD` with default `none`. -/
theorem pad_getD (r : List Cell) (n c : Nat) :
    (r ++ List.replicate n (none : Cell)).getD c none = r.getD c none := by
  by_cases h : c < r.length
  · exact List.getD_append r _ none c h
  · push_neg at h
    rw [List.getD_append_right r _ none c h, List.getD_eq_default r none h]
    by_cases h2 : c - r.length < n
    · rw [List.getD_eq_getElem _ _ (by simpa using h2), List.getElem_replicate]
    · exact List.getD_eq_default _ _ (by simpa using h2)

/-- The initial accumulator never exceeds the running maximum of lengths. -/
theorem foldl_max_init_le : ∀ (l : List (List Cell)) (m : Nat),
    m ≤ l.foldl (fun a x => max a x.length) m := by
  intro l
  induction l with
  | nil => intro m; exact le_refl m
  | cons r rest ih => intro m; exact le_trans (le_max_left m r.length) (ih (max m r.length))

/-- Every member's length is bounded by the folded maximum of lengths. -/
theorem length_le_foldl_max : ∀ (l : List (List Cell)) (m : Nat) (r : List Cell), r ∈ l →
    r.length ≤ l.foldl (fun a x => max a x.length) m := by
  intro l
  induction l with
  | nil => intro m r h; cases h
  | cons a rest ih =>
    intro m r h
    rcases List.mem_cons.mp h with h1 | h1
    · subst h1; exact le_trans (le_max_right m r.length) (foldl_max_init_le rest _)
    · exact ih _ r h1

/-- The folded maximum of a non-empty list of constant-length rows. -/
theorem foldl_max_const : ∀ (l : List (List Cell)) (k : Nat), l ≠ [] → (∀ r ∈ l, r.length = k) →
    ∀ m, l.foldl (fun a x => max a x.length) m = max m k := by
  intro l
  induction l with
  | nil => intro k h; exact absurd rfl h
  | cons a rest ih =>
    intro k _ hall m
    have ha : a.length = k := hall a (List.mem_cons_self a rest)
    show rest.foldl (fun a x => max a x.length) (max m a.length) = max m k
    by_cases hr : rest = []
    · subst hr; rw [ha]; rfl
    · rw [ih k hr (fun r hrr => hall r (List.mem_cons_of_mem a hrr)) (max m a.length), ha,
        max_assoc, max_self]

/-- When every row is discarded, normalization returns the empty grid. -/
theorem clean_eq_nil {rows : List (List Cell)}
    (h : rows.filter (fun row => row.any cellFilled) = []) : clean_table_data rows = [] := by
  unfold clean_table_data
  by_cases h0 : rows = []
  · rw [if_pos h0]; exact h0
  · rw [if_neg h0]
    simp only [h, if_pos]

/-- Closed form of `clean_table_data` when some row survives: project every
surviving (unpadded) row onto the kept columns with a defaulted lookup. -/
theorem clean_eq_map (rows : List (List Cell))
    (h : rows.filter (fun row => row.any cellFilled) ≠ []) :
    clean_table_data rows =
      (rows.filter (fun row => row.any cellFilled)).map
        (fun r => (keptColumns rows).map (fun c => r.getD c none)) := by
  have h0 : rows ≠ [] := by
    intro he; rw [he] at h; exact h rfl
  unfold clean_table_data keptColumns
  rw [if_neg h0, if_neg h]
  have hpad : ∀ c : Nat,
      (fun row => cellFilled (row.getD c none)) ∘
        (fun r : List Cell => r ++ List.replicate
          ((rows.filter (fun row => row.any cellFilled)).foldl
            (fun m r => max m r.length) 0 - r.length) (none : Cell)) =
      fun r : List Cell => cellFilled (r.getD c none) := by
    intro c
    funext r
    show cellFilled ((r ++ _).getD c none) = cellFilled (r.getD c none)
    rw [pad_getD]
  rw [List.map_map]
  have hcols : ∀ (ll : List (List Cell)) (m : Nat),
      (List.range m).filter (fun c => (ll.map (fun r : List Cell => r ++ List.replicate
          ((rows.filter (fun row => row.any cellFilled)).foldl
            (fun m r => max m r.length) 0 - r.length) (none : Cell))).any
        (fun row => cellFilled (row.getD c none))) =
      (List.range m).filter (fun c => ll.any (fun row => cellFilled (row.getD c none))) := by
    intro ll m
    refine List.filter_congr ?_
    intro c _
    rw [List.any_map, hpad c]
  rw [hcols]
  refine List.map_congr_left ?_
  intro r _
  simp only [Function.comp_apply]
  refine List.map_congr_left ?_
  intro c _
  exact pad_getD r _ c

/-- Membership in the kept-column list. -/
theorem mem_keptColumns {rows : List (List Cell)} {c : Nat} :
    c ∈ keptColumns rows ↔
      c < (rows.filter (fun row => row.any cellFilled)).foldl (fun m r => max m r.length) 0 ∧
      (rows.filter (fun row => row.any cellFilled)).any
        (fun row => cellFilled (row.getD c none)) = true := by
  unfold keptColumns
  rw [List.mem_filter, List.mem_range]

/-- Every row of a normalized grid is the kept-column projection of some
surviving input row. -/
theorem mem_clean {rows : List (List Cell)} {R : List Cell} (h : R ∈ clean_table_data rows) :
    ∃ r ∈ rows.filter (fun row => row.any cellFilled),
      R = (keptColumns rows).map (fun c => r.getD c none) := by
  by_cases hf : rows.filter (fun row => row.any cellFilled) = []
  · rw [clean_eq_nil hf] at h; cases h
  · rw [clean_eq_map rows hf] at h
    rcases List.mem_map.mp h with ⟨r, hr, hR⟩
    exact ⟨r, hr, hR.symm⟩

/-- Every normalized row is as wide as the kept-column list. -/
theorem clean_rows_width (rows : List (List Cell)) :
    ∀ R ∈ clean_table_data rows, R.length = (keptColumns rows).length := by
  intro R hR
  rcases mem_clean hR with ⟨r, _, hmap⟩
  rw [hmap, List.length_map]

/-- No normalized row is entirely empty. -/
theorem clean_rows_filled (rows : List (List Cell)) :
    ∀ R ∈ clean_table_data rows, R.any cellFilled = true := by
  intro R hR
  rcases mem_clean hR with ⟨r, hr, hmap⟩
  have hr2 := List.mem_filter.mp hr
  rcases List.any_eq_true.mp hr2.2 with ⟨x, hx, hfill⟩
  rcases List.mem_iff_getElem.mp hx with ⟨c, hc, hget⟩
  have hckept : c ∈ keptColumns rows := by
    rw [mem_keptColumns]
    constructor
    · exact lt_of_lt_of_le hc (length_le_foldl_max _ 0 r hr)
    · exact List.any_eq_true.mpr ⟨r, hr, by rw [List.getD_eq_getElem r none hc, hget]; exact hfill⟩
  refine List.any_eq_true.mpr ⟨r.getD c none, ?_, ?_⟩
  · rw [hmap]; exact List.mem_map.mpr ⟨c, hckept, rfl⟩
  · rw [List.getD_eq_getElem r none hc, hget]; exact hfill

/-- No kept column is entirely empty in the normalized grid. -/
theorem clean_cols_filled (rows : List (List Cell)) :
    ∀ j, j < (keptColumns rows).length →
      ∃ R ∈ clean_table_data rows, cellFilled (R.getD j none) = true := by
  intro j hj
  have hc : (keptColumns rows)[j] ∈ keptColumns rows := List.getElem_mem hj
  rcases mem_keptColumns.mp hc with ⟨_, hany⟩
  rcases List.any_eq_true.mp hany with ⟨r, hr, hfill⟩
  have hfne : rows.filter (fun row => row.any cellFilled) ≠ [] := List.ne_nil_of_mem hr
  refine ⟨(keptColumns rows).map (fun c => r.getD c none), ?_, ?_⟩
  · rw [clean_eq_map rows hfne]
    exact List.mem_map.mpr ⟨r, hr, rfl⟩
  · have hjlen : j < ((keptColumns rows).map (fun c => r.getD c none)).length := by
      rw [List.length_map]; exact hj
    rw [List.getD_eq_getElem _ none hjlen, List.getElem_map]
    exact hfill

/-- Claim C1: the grid returned by `clean_table_data` is rectangular of
width the number of kept columns, has no all-empty row, and has no
all-empty column (all holding vacuously when the grid is empty, which is
a permitted outcome). -/
theorem clean_table_data_grid_invariant (rows : List (List Cell)) :
    (∀ R ∈ clean_table_data rows, R.length = (keptColumns rows).length) ∧
    (∀ R ∈ clean_table_data rows, R.any cellFilled = true) ∧
    (∀ j, j < (keptColumns rows).length →
      ∃ R ∈ clean_table_data rows, cellFilled (R.getD j none) = true) :=
  ⟨clean_rows_width rows, clean_rows_filled rows, clean_cols_filled rows⟩

/-- Witness for C1 on a small concrete grid. -/
theorem clean_table_data_grid_invariant_witness :
    ([some "a", none] : List Cell).length =
      (keptColumns [[some "a", none], [none, some "b"]]).length ∧
    ([some "a", none] : List Cell).any cellFilled = true ∧
    ∃ R ∈ clean_table_data [[some "a", none], [none, some "b"]],
      cellFilled (R.getD 0 none) = true :=
  ⟨(clean_table_data_grid_invariant [[some "a", none], [none, some "b"]]).1
      [some "a", none] (by decide),
   (clean_table_data_grid_invariant [[some "a", none], [none, some "b"]]).2.1
      [some "a", none] (by decide),
   (clean_table_data_grid_invariant [[some "a", none], [none, some "b"]]).2.2 0 (by decide)⟩

/-- Claim C10: every cell of a normalized grid is the untouched original
cell of the same input row at the same original column index, or a `none`
padding cell at a position beyond that row's original length; values are
never rewritten. -/
theorem clean_table_data_cells (rows : List (List Cell)) :
    ∀ R ∈ clean_table_data rows, ∃ r ∈ rows,
      R.length = (keptColumns rows).length ∧
      ∀ j, j < R.length → ∃ c, (keptColumns rows)[j]? = some c ∧
        ((c < r.length ∧ R[j]? = r[c]?) ∨ (r.length ≤ c ∧ R[j]? = some (none : Cell))) := by
  intro R hR
  rcases mem_clean hR with ⟨r, hr, hmap⟩
  refine ⟨r, (List.mem_filter.mp hr).1, by rw [hmap, List.length_map], ?_⟩
  intro j hj
  have hjk : j < (keptColumns rows).length := by
    rw [hmap, List.length_map] at hj; exact hj
  refine ⟨(keptColumns rows)[j], List.getElem?_eq_getElem hjk, ?_⟩
  have hRj : R[j]? = some (r.getD (keptColumns rows)[j] none) := by
    rw [hmap, List.getElem?_map, List.getElem?_eq_getElem hjk]
    rfl
  by_cases hcr : (keptColumns rows)[j] < r.length
  · refine Or.inl ⟨hcr, ?_⟩
    rw [hRj, List.getD_eq_getElem r none hcr, List.getElem?_eq_getElem hcr]
  · push_neg at hcr
    refine Or.inr ⟨hcr, ?_⟩
    rw [hRj, List.getD_eq_default r none hcr]

/-- Witness for C10 on a small concrete grid with a ragged row. -/
theorem clean_table_data_cells_witness :
    ∃ r ∈ [[some "a"], [none, some "b"]], ([some "a", none] : List Cell).length =
      (keptColumns [[some "a"], [none, some "b"]]).length ∧
      ∀ j, j < ([some "a", none] : List Cell).length →
        ∃ c, (keptColumns [[some "a"], [none, some "b"]])[j]? = some c ∧
          ((c < r.length ∧ ([some "a", none] : List Cell)[j]? = r[c]?) ∨
           (r.length ≤ c ∧ ([some "a", none] : List Cell)[j]? = some (none : Cell))) :=
  clean_table_data_cells [[some "a"], [none, some "b"]] [some "a", none] (by decide)

/-- Projecting a row onto all positions of its own range is the identity. -/
theorem map_range_getD (r : List Cell) :
    (List.range r.length).map (fun c => r.getD c none) = r := by
  refine List.ext_getElem ?_ ?_
  · rw [List.length_map, List.length_range]
  · intro n h1 h2
    rw [List.getElem_map, List.getElem_range, List.getD_eq_getElem r none h2]

/-- Claim C5: normalization is idempotent — re-normalizing a normalized
grid returns it unchanged. -/
theorem clean_table_data_idempotent (rows : List (List Cell)) :
    clean_table_data (clean_table_data rows) = clean_table_data rows := by
  by_cases hf : rows.filter (fun row => row.any cellFilled) = []
  · rw [clean_eq_nil hf]; rfl
  · set g := clean_table_data rows with hg
    set k := (keptColumns rows).length with hk
    have hrect : ∀ R ∈ g, R.length = k := clean_rows_width rows
    have hrow : ∀ R ∈ g, R.any cellFilled = true := clean_rows_filled rows
    have hcol : ∀ j, j < k → ∃ R ∈ g, cellFilled (R.getD j none) = true :=
      clean_cols_filled rows
    have hgne : g ≠ [] := by
      rw [hg, clean_eq_map rows hf]
      intro hcontra
      exact hf (List.map_eq_nil_iff.mp hcontra)
    have hgfilter : g.filter (fun row => row.any cellFilled) = g := List.filter_eq_self.mpr hrow
    have hkg : keptColumns g = List.range k := by
      show (List.range ((g.filter (fun row => row.any cellFilled)).foldl
          (fun m r => max m r.length) 0)).filter
          (fun c => (g.filter (fun row => row.any cellFilled)).any
            (fun row => cellFilled (row.getD c none))) = List.range k
      rw [hgfilter, foldl_max_const g k hgne hrect 0, Nat.zero_max]
      refine List.filter_eq_self.mpr ?_
      intro c hc
      rcases hcol c (List.mem_range.mp hc) with ⟨R, hR, hfill⟩
      exact List.any_eq_true.mpr ⟨R, hR, hfill⟩
    have hfilterne : g.filter (fun row => row.any cellFilled) ≠ [] := by
      rw [hgfilter]; exact hgne
    rw [clean_eq_map g hfilterne, hgfilter, hkg]
    conv_rhs => rw [← List.map_id g]
    refine List.map_congr_left ?_
    intro R hR
    show (List.range k).map (fun c => R.getD c none) = R
    rw [← hrect R hR]
    exact map_range_getD R

/-! Header inference: claim C2. -/

/-- A concrete sample of the external float parser, accepting exactly the
string "1"; used to exhibit an input on which the code and the claim's
rule disagree. -/
def pyFloatOne : String → Bool := fun s => s == "1"

/-- Counterexample to claim C2 as stated: on the grid whose first row is
empty and whose second row holds the numeric cell "1", the claim's rule
(no numeric cell in row 0, pooled ratio 1 > 0.15) answers row 0, but
`infer_header_row` answers "none" because of its guard on an empty first
row. -/
theorem infer_header_row_c2_cex :
    infer_header_row pyFloatOne [[], [some "1"]] = none ∧
    headerRuleC2 pyFloatOne [[], [some "1"]] = some 0 := by
  exact ⟨rfl, rfl⟩

/-- Claim C2 as amended: with the additional guard that an empty grid or
an empty first row answers "none", `infer_header_row` is exactly the
claim's rule; moreover it only ever answers "none" or row index 0. -/
theorem infer_header_row_amended (pyFloat : String → Bool) (rows : List (List Cell)) :
    (infer_header_row pyFloat rows =
      if rows.headD [] = [] then none else headerRuleC2 pyFloat rows) ∧
    (infer_header_row pyFloat rows = none ∨ infer_header_row pyFloat rows = some 0) := by
  constructor
  · by_cases hr0 : rows.headD [] = []
    · rw [if_pos hr0]
      unfold infer_header_row
      by_cases hnil : rows = []
      · rw [if_pos hnil]
      · rw [if_neg hnil, if_pos hr0]
    · have hnil : rows ≠ [] := by
        intro he; rw [he] at hr0; exact hr0 rfl
      rw [if_neg hr0]
      unfold infer_header_row headerRuleC2
      rw [if_neg hnil, if_neg hr0]
      have hfun : (fun x : Cell => !((x == none) || !(is_number pyFloat x))) =
          (fun x : Cell => !(x == none) && is_number pyFloat x) := by
        funext x
        rw [Bool.not_or, Bool.not_not]
      have hall : (rows.headD []).all (fun x => (x == none) || !(is_number pyFloat x)) =
          !(rows.headD []).any (fun x => !(x == none) && is_number pyFloat x) := by
        rw [List.all_eq_not_any_not, hfun]
      show (if !(rows.headD []).all (fun x => (x == none) || !(is_number pyFloat x)) then none
          else if 20 * (((rows.drop 1).map (fun row => row.filter cellFilled)).flatten.countP
              (is_number pyFloat)) >
              3 * max 1 ((rows.drop 1).map (fun row => row.filter cellFilled)).flatten.length
            then some 0 else none) =
        (if (rows.headD []).any (fun x => !(x == none) && is_number pyFloat x) then none
          else if ((rows.drop 1).map (fun row => row.filter cellFilled)).flatten = [] then none
          else if 20 * (((rows.drop 1).map (fun row => row.filter cellFilled)).flatten.countP
              (is_number pyFloat)) >
              3 * ((rows.drop 1).map (fun row => row.filter cellFilled)).flatten.length
            then some 0 else none)
      rw [hall, Bool.not_not]
      by_cases hq : (rows.headD []).any (fun x => !(x == none) && is_number pyFloat x) = true
      · rw [if_pos hq, if_pos hq]
      · rw [if_neg hq, if_neg hq]
        by_cases hpool : ((rows.drop 1).map (fun row => row.filter cellFilled)).flatten = []
        · rw [if_pos hpool, hpool]
          simp
        · rw [if_neg hpool, Nat.max_eq_right (List.length_pos.mpr hpool)]
  · unfold infer_header_row
    by_cases h1 : rows = []
    · rw [if_pos h1]; exact Or.inl rfl
    · rw [if_neg h1]
      by_cases h2 : rows.headD [] = []
      · rw [if_pos h2]; exact Or.inl rfl
      · rw [if_neg h2]
        show (if !(rows.headD []).all (fun x => (x == none) || !(is_number pyFloat x)) then none
            else if 20 * (((rows.drop 1).map (fun row => row.filter cellFilled)).flatten.countP
                (is_number pyFloat)) >
                3 * max 1 ((rows.drop 1).map (fun row => row.filter cellFilled)).flatten.length
              then some 0 else none) = none ∨
          (if !(rows.headD []).all (fun x => (x == none) || !(is_number pyFloat x)) then none
            else if 20 * (((rows.drop 1).map (fun row => row.filter cellFilled)).flatten.countP
                (is_number pyFloat)) >
                3 * max 1 ((rows.drop 1).map (fun row => row.filter cellFilled)).flatten.length
              then some 0 else none) = some (0 : Nat)
        split_ifs with h3 h4
        · exact Or.inl rfl
        · exact Or.inr rfl
        · exact Or.inl rfl

/-! Scan detection: claim C8. -/

/-- Claim C8: `looks_scanned` answers true exactly when the page yields a
word list that is empty and an image list that is non-empty, and an
exception from either accessor makes it answer false instead of
propagating. -/
theorem looks_scanned_spec (page : PdfPage) :
    (looks_scanned page = true ↔
      (∃ ws, page.extract_words = PyRes.ok ws ∧ ws = ([] : List String)) ∧
      (∃ imgs, page.images = PyRes.ok imgs ∧ 0 < imgs.length)) ∧
    (page.extract_words = PyRes.err → looks_scanned page = false) ∧
    (page.images = PyRes.err → looks_scanned page = false) := by
  rcases page with ⟨ft, et, tx, wsr, imr⟩
  cases wsr with
  | err => refine ⟨?_, ?_, ?_⟩ <;> simp [looks_scanned]
  | ok words =>
    cases imr with
    | err =>
      refine ⟨?_, ?_, ?_⟩ <;> simp [looks_scanned]
    | ok imgs =>
      refine ⟨?_, ?_, ?_⟩ <;> simp [looks_scanned]

/-- Witness for C8: a wordless page with one image is flagged as scanned,
and a page whose word query raises is not. -/
theorem looks_scanned_spec_witness :
    looks_scanned ⟨PyRes.err, PyRes.err, PyRes.ok "", PyRes.ok [], PyRes.ok [()]⟩ = true ∧
    looks_scanned ⟨PyRes.err, PyRes.err, PyRes.ok "", PyRes.err, PyRes.ok [()]⟩ = false :=
  ⟨(looks_scanned_spec ⟨PyRes.err, PyRes.err, PyRes.ok "", PyRes.ok [], PyRes.ok [()]⟩).1.mpr
      ⟨⟨[], rfl, rfl⟩, ⟨[()], rfl, by decide⟩⟩,
   (looks_scanned_spec ⟨PyRes.err, PyRes.err, PyRes.ok "", PyRes.err, PyRes.ok [()]⟩).2.1 rfl⟩

/-! Per-page extraction fallback: claim C9. -/

/-- Claim C9: per-page table extraction uses the primary mode, falls back
to the secondary mode when the primary raises, and treats the page as
contributing zero tables when both raise; moreover a page on which both
modes raise is processed by the whole converter exactly like a page
reporting zero tables, so the document is never aborted. -/
theorem pageTables_fallback :
    (∀ (page : PdfPage) ts, page.find_tables = PyRes.ok ts → pageTables page = ts) ∧
    (∀ (page : PdfPage) ts, page.find_tables = PyRes.err → page.extract_tables = PyRes.ok ts →
      pageTables page = ts) ∧
    (∀ page : PdfPage, page.find_tables = PyRes.err → page.extract_tables = PyRes.err →
      pageTables page = []) ∧
    (∀ (pyFloat : String → Bool) (fuel : Nat) (pre post : List PdfPage) (page : PdfPage),
      page.find_tables = PyRes.err → page.extract_tables = PyRes.err →
      convert_pdf_to_excel_bytes pyFloat fuel (pre ++ page :: post) =
        convert_pdf_to_excel_bytes pyFloat fuel
          (pre ++ { page with find_tables := PyRes.ok [] } :: post)) := by
  refine ⟨?_, ?_, ?_, ?_⟩
  · intro page ts h
    simp [pageTables, h]
  · intro page ts h1 h2
    simp [pageTables, h1, h2]
  · intro page h1 h2
    simp [pageTables, h1, h2]
  · intro pyFloat fuel pre post page h1 h2
    obtain ⟨ft, et, tx, wsr, imr⟩ := page
    change ft = PyRes.err at h1
    change et = PyRes.err at h2
    subst h1
    subst h2
    have hstep : ∀ idx st, pageStep pyFloat fuel idx
        (⟨PyRes.err, PyRes.err, tx, wsr, imr⟩ : PdfPage) st =
        pageStep pyFloat fuel idx (⟨PyRes.ok [], PyRes.err, tx, wsr, imr⟩ : PdfPage) st :=
      fun idx st => rfl
    have hloop : ∀ (pre2 : List PdfPage) (idx : Nat) (st : ConvSt),
        pageLoop pyFloat fuel (pre2 ++ (⟨PyRes.err, PyRes.err, tx, wsr, imr⟩ : PdfPage) :: post)
            idx st =
        pageLoop pyFloat fuel (pre2 ++ (⟨PyRes.ok [], PyRes.err, tx, wsr, imr⟩ : PdfPage) :: post)
            idx st := by
      intro pre2
      induction pre2 with
      | nil =>
        intro idx st
        simp only [List.nil_append, pageLoop]
        rw [hstep idx st]
      | cons q qs ih =>
        intro idx st
        simp only [List.cons_append, pageLoop]
        cases hq : pageStep pyFloat fuel idx q st with
        | none => rfl
        | some st1 => exact ih (idx + 1) st1
    unfold convert_pdf_to_excel_bytes
    rw [hloop pre 1 initSt]

/-- Witness for C9: a page on which both extraction modes raise yields no
tables, and a one-page document made of it converts exactly like one made
of a page reporting zero tables. -/
theorem pageTables_fallback_witness :
    pageTables ⟨PyRes.err, PyRes.err, PyRes.ok "x", PyRes.ok ["w"], PyRes.ok []⟩ = [] ∧
    convert_pdf_to_excel_bytes (fun _ => false) 0
        ([] ++ (⟨PyRes.err, PyRes.err, PyRes.ok "x", PyRes.ok ["w"], PyRes.ok []⟩ : PdfPage) :: []) =
      convert_pdf_to_excel_bytes (fun _ => false) 0
        ([] ++ (⟨PyRes.ok [], PyRes.err, PyRes.ok "x", PyRes.ok ["w"], PyRes.ok []⟩ : PdfPage) :: []) :=
  ⟨pageTables_fallback.2.2.1 _ rfl rfl,
   pageTables_fallback.2.2.2 (fun _ => false) 0 [] [] _ rfl rfl⟩

/-! Sheet-name uniquing: claim C7. -/

/-- Digit characters are neither whitespace nor forbidden. -/
theorem digitChar_clean (d : Nat) :
    pyIsSpace (digitChar d) = false ∧ isBadChar (digitChar d) = false := by
  unfold digitChar
  split_ifs <;> exact ⟨by decide, by decide⟩

/-- `digitChar` is injective on actual digits. -/
theorem digitChar_inj : ∀ d < 10, ∀ e < 10, digitChar d = digitChar e → d = e := by decide

/-- Every entry produced by `digitsRevAux` is an actual digit. -/
theorem digitsRevAux_lt : ∀ f n d, d ∈ digitsRevAux f n → d < 10 := by
  intro f
  induction f with
  | zero => intro n d h; simp [digitsRevAux] at h
  | succ f ih =>
    intro n d h
    cases n with
    | zero => simp [digitsRevAux] at h
    | succ m =>
      simp only [digitsRevAux] at h
      rcases List.mem_cons.mp h with h1 | h1
      · rw [h1]; exact Nat.mod_lt _ (by decide)
      · exact ih _ _ h1

/-- Value of a least-significant-first digit list. -/
def undigits : List Nat → Nat
  | [] => 0
  | d :: rest => d + 10 * undigits rest

/-- `digitsRevAux` is inverted by `undigits` whenever the fuel suffices. -/
theorem undigits_digitsRevAux : ∀ f n, n ≤ f → undigits (digitsRevAux f n) = n := by
  intro f
  induction f with
  | zero =>
    intro n h
    have h0 : n = 0 := Nat.le_zero.mp h
    subst h0
    rfl
  | succ f ih =>
    intro n h
    cases n with
    | zero => rfl
    | succ m =>
      simp only [digitsRevAux, undigits]
      have hdiv : (m + 1) / 10 ≤ f := by
        have h1 : (m + 1) / 10 < m + 1 := Nat.div_lt_self (Nat.succ_pos m) (by decide)
        omega
      rw [ih _ hdiv]
      exact Nat.mod_add_div (m + 1) 10

/-- Mapping `digitChar` over digit lists is injective. -/
theorem map_digitChar_inj : ∀ (l1 l2 : List Nat), (∀ d ∈ l1, d < 10) → (∀ d ∈ l2, d < 10) →
    l1.map digitChar = l2.map digitChar → l1 = l2 := by
  intro l1
  induction l1 with
  | nil =>
    intro l2 _ _ h
    cases l2 with
    | nil => rfl
    | cons d rest => simp at h
  | cons d rest ih =>
    intro l2 h1 h2 h
    cases l2 with
    | nil => simp at h
    | cons e rest2 =>
      simp only [List.map_cons, List.cons.injEq] at h
      have hd : d = e := digitChar_inj d (h1 d (List.mem_cons_self d rest)) e
        (h2 e (List.mem_cons_self e rest2)) h.1
      have hrest : rest = rest2 := ih rest2 (fun x hx => h1 x (List.mem_cons_of_mem d hx))
        (fun x hx => h2 x (List.mem_cons_of_mem e hx)) h.2
      rw [hd, hrest]

/-- The decimal rendering of naturals is injective. -/
theorem pyStrNat_inj : ∀ a b : Nat, pyStrNat a = pyStrNat b → a = b := by
  have hzero : ∀ b : Nat, b ≠ 0 → pyStrNat b ≠ "0" := by
    intro b hb hcontra
    have hd : (digitsRevAux b b).reverse.map digitChar = ['0'] := by
      have := congrArg String.data hcontra
      rw [pyStrNat, if_neg hb] at this
      exact this
    have hrev : ∃ d, (digitsRevAux b b).reverse = [d] ∧ digitChar d = '0' := by
      cases hl : (digitsRevAux b b).reverse with
      | nil => rw [hl] at hd; simp at hd
      | cons d rest =>
        rw [hl] at hd
        simp only [List.map_cons, List.cons.injEq] at hd
        rcases hd with ⟨hd1, hd2⟩
        have : rest = [] := List.map_eq_nil_iff.mp hd2
        exact ⟨d, by rw [this], hd1⟩
    rcases hrev with ⟨d, hsing, hdc⟩
    have hdig : digitsRevAux b b = [d] := by
      have := congrArg List.reverse hsing
      rw [List.reverse_reverse] at this
      rw [this]
      rfl
    have hdlt : d < 10 := digitsRevAux_lt b b d (by rw [hdig]; exact List.mem_singleton.mpr rfl)
    have hd0 : d = 0 := digitChar_inj d hdlt 0 (by decide) hdc
    have : b = 0 := by
      have hu := undigits_digitsRevAux b b (le_refl b)
      rw [hdig, hd0] at hu
      simpa [undigits] using hu.symm
    exact hb this
  intro a b h
  by_cases ha : a = 0 <;> by_cases hb : b = 0
  · rw [ha, hb]
  · exact absurd h.symm (by rw [ha]; exact fun hc => hzero b hb (hc ▸ rfl))
  · exact absurd h (by rw [hb]; exact fun hc => hzero a ha hc)
  · have hd := congrArg String.data h
    rw [pyStrNat, pyStrNat, if_neg ha, if_neg hb] at hd
    have hmaps : (digitsRevAux a a).reverse.map digitChar =
        (digitsRevAux b b).reverse.map digitChar := hd
    have hrev : (digitsRevAux a a).reverse = (digitsRevAux b b).reverse :=
      map_digitChar_inj _ _
        (fun x hx => digitsRevAux_lt a a x (List.mem_reverse.mp hx))
        (fun x hx => digitsRevAux_lt b b x (List.mem_reverse.mp hx)) hmaps
    have hdig : digitsRevAux a a = digitsRevAux b b := List.reverse_inj.mp hrev
    have hu1 := undigits_digitsRevAux a a (le_refl a)
    have hu2 := undigits_digitsRevAux b b (le_refl b)
    rw [← hu1, ← hu2, hdig]

/-- Every character of a decimal rendering is a digit character, hence
neither whitespace nor forbidden. -/
theorem pyStrNat_clean (n : Nat) : ∀ c ∈ (pyStrNat n).data,
    pyIsSpace c = false ∧ isBadChar c = false := by
  intro c h
  unfold pyStrNat at h
  by_cases hn : n = 0
  · rw [if_pos hn] at h
    have : c = '0' := List.mem_singleton.mp h
    rw [this]
    exact ⟨by decide, by decide⟩
  · rw [if_neg hn] at h
    rcases List.mem_map.mp h with ⟨d, _, hd⟩
    rw [← hd]
    exact digitChar_clean d

/-- Decimal renderings are never empty. -/
theorem pyStrNat_length_pos (n : Nat) : 0 < (pyStrNat n).length := by
  unfold pyStrNat
  by_cases hn : n = 0
  · rw [if_pos hn]; decide
  · rw [if_neg hn]
    show 0 < ((digitsRevAux n n).reverse.map digitChar).length
    rw [List.length_map, List.length_reverse]
    cases n with
    | zero => exact absurd rfl hn
    | succ m => simp [digitsRevAux]

/-- Appending distinct suffix numbers to the same base yields distinct
candidates. -/
theorem append_pyStrNat_inj (base : String) {s t : Nat}
    (h : base ++ "_" ++ pyStrNat s = base ++ "_" ++ pyStrNat t) : s = t := by
  apply pyStrNat_inj
  have hd := congrArg String.data h
  rw [String.data_append, String.data_append, String.data_append, String.data_append] at hd
  exact String.ext (List.append_cancel_left hd)

/-- `dropWhile` is the identity when nothing satisfies the predicate. -/
theorem dropWhile_eq_self_of_none {l : List Char} (h : ∀ c ∈ l, pyIsSpace c = false) :
    l.dropWhile pyIsSpace = l := by
  cases l with
  | nil => rfl
  | cons c cs =>
    rw [List.dropWhile_cons, if_neg]
    rw [h c (List.mem_cons_self c cs)]
    simp

/-- Stripping a whitespace-free string is the identity. -/
theorem pyStrip_eq_self {l : List Char} (h : ∀ c ∈ l, pyIsSpace c = false) : pyStrip l = l := by
  unfold pyStrip
  rw [dropWhile_eq_self_of_none h,
    dropWhile_eq_self_of_none (fun c hc => h c (List.mem_reverse.mp hc)), List.reverse_reverse]

/-- Collapsing a whitespace-free string is the identity. -/
theorem collapseWs_eq_self : ∀ (l : List Char) (b : Bool), (∀ c ∈ l, pyIsSpace c = false) →
    collapseWsAux b l = l := by
  intro l
  induction l with
  | nil => intro b _; rfl
  | cons c cs ih =>
    intro b h
    unfold collapseWsAux
    rw [if_neg (by rw [h c (List.mem_cons_self c cs)]; simp)]
    rw [ih false (fun x hx => h x (List.mem_cons_of_mem c hx))]

/-- Replacing forbidden characters in a string that has none is the identity. -/
theorem map_replace_eq_self {l : List Char} (h : ∀ c ∈ l, isBadChar c = false) :
    l.map (fun c => if isBadChar c then ' ' else c) = l := by
  conv_rhs => rw [← List.map_id l]
  refine List.map_congr_left ?_
  intro c hc
  show (if isBadChar c then ' ' else c) = c
  rw [if_neg (by rw [h c hc]; simp)]

/-- On a non-empty string whose characters are neither whitespace nor
forbidden, the sanitizer is plain truncation to 31 characters. -/
theorem sanitize_clean_eq (s : String)
    (h : ∀ c ∈ s.data, pyIsSpace c = false ∧ isBadChar c = false) (hne : s.data ≠ []) :
    sanitize_sheet_name s = String.mk (s.data.take 31) := by
  show (if pyStrip (collapseWsAux false
      (s.data.map (fun c => if isBadChar c then ' ' else c))) = [] then "Sheet"
    else String.mk ((pyStrip (collapseWsAux false
      (s.data.map (fun c => if isBadChar c then ' ' else c)))).take 31)) = String.mk (s.data.take 31)
  rw [map_replace_eq_self (fun c hc => (h c hc).2),
    collapseWs_eq_self s.data false (fun c hc => (h c hc).1),
    pyStrip_eq_self (fun c hc => (h c hc).1), if_neg hne]

/-- A 31-character candidate name, already at the Excel length limit. -/
def thirtyOneAs : String := "AAAAAAAAAAAAAAAAAAAAAAAAAAAAAAA"

/-- Appending any suffix to the 31-character candidate and re-sanitizing
truncates straight back to the candidate itself. -/
theorem sanitize_thirtyOneAs_append (s : Nat) :
    sanitize_sheet_name (thirtyOneAs ++ "_" ++ pyStrNat s) = thirtyOneAs := by
  have hdata : (thirtyOneAs ++ "_" ++ pyStrNat s).data =
      thirtyOneAs.data ++ ('_' :: (pyStrNat s).data) := by
    rw [String.data_append, String.data_append, List.append_assoc]
    rfl
  have hclean : ∀ c ∈ (thirtyOneAs ++ "_" ++ pyStrNat s).data,
      pyIsSpace c = false ∧ isBadChar c = false := by
    rw [hdata]
    intro c hc
    rcases List.mem_append.mp hc with h1 | h1
    · exact (by decide : ∀ c ∈ thirtyOneAs.data,
        pyIsSpace c = false ∧ isBadChar c = false) c h1
    · rcases List.mem_cons.mp h1 with h2 | h2
      · rw [h2]; exact ⟨by decide, by decide⟩
      · exact pyStrNat_clean s c h2
  have hne : (thirtyOneAs ++ "_" ++ pyStrNat s).data ≠ [] := by
    rw [hdata]
    intro hcontra
    have := congrArg List.length hcontra
    rw [List.length_append] at this
    simp at this
  rw [sanitize_clean_eq _ hclean hne, hdata,
    List.take_left' (by decide : thirtyOneAs.data.length = 31)]

/-- The sheet-naming `while` loop never finishes on this input: whatever
fuel it is given, it is still running when the fuel runs out. -/
def uniqueLoopStuck (existing : List String) (base : String) : Prop :=
  ∀ fuel : Nat, uniqueLoop existing base fuel 2 base = none

/-- Counterexample to claim C7 as stated: with the 31-character candidate
already among the existing names, every appended suffix re-truncates to
the same 31 characters, so the uniquing loop never terminates. -/
theorem uniqueLoop_c7_cex : uniqueLoopStuck [thirtyOneAs] thirtyOneAs := by
  have key : ∀ (fuel suffix : Nat),
      uniqueLoop [thirtyOneAs] thirtyOneAs fuel suffix thirtyOneAs = none := by
    intro fuel
    induction fuel with
    | zero => intro suffix; rfl
    | succ f ih =>
      intro suffix
      simp only [uniqueLoop]
      rw [if_pos (List.mem_singleton.mpr rfl), sanitize_thirtyOneAs_append suffix]
      exact ih (suffix + 1)
  intro fuel
  exact key fuel 2

/-- The loop returns an unused name as soon as one of the candidates
within reach of the fuel is unused. -/
theorem uniqueLoop_finds (existing : List String) (base : String) :
    ∀ (f s : Nat) (sheet : String),
      ((∃ t, s ≤ t ∧ t < s + f ∧
          sanitize_sheet_name (base ++ "_" ++ pyStrNat t) ∉ existing) ∨ sheet ∉ existing) →
      ∃ nm, uniqueLoop existing base (f + 1) s sheet = some nm ∧ nm ∉ existing := by
  intro f
  induction f with
  | zero =>
    intro s sheet h
    have hsheet : sheet ∉ existing := by
      rcases h with ⟨t, ht1, ht2, _⟩ | h
      · omega
      · exact h
    refine ⟨sheet, ?_, hsheet⟩
    simp only [uniqueLoop]
    rw [if_neg hsheet]
  | succ f ih =>
    intro s sheet h
    by_cases hs : sheet ∈ existing
    · have h2 : (∃ t, s + 1 ≤ t ∧ t < (s + 1) + f ∧
          sanitize_sheet_name (base ++ "_" ++ pyStrNat t) ∉ existing) ∨
          sanitize_sheet_name (base ++ "_" ++ pyStrNat s) ∉ existing := by
        rcases h with ⟨t, ht1, ht2, ht3⟩ | h
        · by_cases hts : t = s
          · right; rw [← hts]; exact ht3
          · left; exact ⟨t, by omega, by omega, ht3⟩
        · exact absurd hs h
      rcases ih (s + 1) (sanitize_sheet_name (base ++ "_" ++ pyStrNat s)) h2 with ⟨nm, hnm, hnm2⟩
      refine ⟨nm, ?_, hnm2⟩
      show uniqueLoop existing base (f + 1 + 1) s sheet = some nm
      simp only [uniqueLoop]
      rw [if_pos hs]
      exact hnm
    · refine ⟨sheet, ?_, hs⟩
      simp only [uniqueLoop]
      rw [if_neg hs]

/-- Claim C7 as amended: whenever re-sanitizing the suffixed candidates
that the loop can reach is a no-op (no re-truncation or re-cleaning
occurs — exactly what the counterexample violates), the uniquing loop
terminates within `|existing| + 2` iterations and returns a name outside
the existing set; a caller that then adds the name to the set therefore
never produces two equal names. -/
theorem uniqueLoop_amended (existing : List String) (base : String)
    (hfix : ∀ s, 2 ≤ s → s ≤ existing.length + 2 →
      sanitize_sheet_name (base ++ "_" ++ pyStrNat s) = base ++ "_" ++ pyStrNat s) :
    ∃ sheet, uniqueLoop existing base (existing.length + 2) 2 base = some sheet ∧
      sheet ∉ existing := by
  have main : (∃ t, 2 ≤ t ∧ t < 2 + (existing.length + 1) ∧
      sanitize_sheet_name (base ++ "_" ++ pyStrNat t) ∉ existing) ∨ base ∉ existing := by
    by_contra hcon
    push_neg at hcon
    obtain ⟨hall, hbase⟩ := hcon
    have hsub : ∀ x ∈ (base :: (List.range' 2 (existing.length + 1)).map
        (fun t => base ++ "_" ++ pyStrNat t)), x ∈ existing := by
      intro x hx
      rcases List.mem_cons.mp hx with h1 | h1
      · rw [h1]; exact hbase
      · rcases List.mem_map.mp h1 with ⟨t, ht, rfl⟩
        rcases List.mem_range'_1.mp ht with ⟨ht1, ht2⟩
        have := hall t ht1 ht2
        rw [hfix t ht1 (by omega)] at this
        exact this
    have hnodup : (base :: (List.range' 2 (existing.length + 1)).map
        (fun t => base ++ "_" ++ pyStrNat t)).Nodup := by
      rw [List.nodup_cons]
      constructor
      · intro hmem
        rcases List.mem_map.mp hmem with ⟨t, _, hteq⟩
        have hlen := congrArg String.length hteq
        rw [String.length_append, String.length_append] at hlen
        have := pyStrNat_length_pos t
        omega
      · refine List.Nodup.map_on ?_ (List.nodup_range' 2 (existing.length + 1))
        intro x _ y _ hxy
        exact append_pyStrNat_inj base hxy
    have hle := (List.Nodup.subperm hnodup hsub).length_le
    simp only [List.length_cons, List.length_map, List.length_range'] at hle
    omega
  rcases main with ⟨t, ht1, ht2, ht3⟩ | hbase
  · exact uniqueLoop_finds existing base (existing.length + 1) 2 base
      (Or.inl ⟨t, ht1, ht2, ht3⟩)
  · exact uniqueLoop_finds existing base (existing.length + 1) 2 base (Or.inr hbase)

/-- Witness for the amended C7 at a small concrete instance. -/
theorem uniqueLoop_amended_witness :
    ∃ sheet, uniqueLoop ["T"] "T" (["T"].length + 2) 2 "T" = some sheet ∧ sheet ∉ ["T"] :=
  uniqueLoop_amended ["T"] "T" (by decide)

/-! Document-level fallback: claim C3. -/

/-- The per-page table loop writes exactly one sheet per counted table. -/
theorem tablesLoop_inv (pyFloat : String → Bool) (fuel pageIdx : Nat) :
    ∀ (ts : List (List (List Cell))) (st : ConvSt) (cnt : Nat) (st' : ConvSt) (cnt' : Nat),
      tablesLoop pyFloat fuel pageIdx ts st cnt = some (st', cnt') →
      st.sheets.length = st.tables_found → st'.sheets.length = st'.tables_found := by
  intro ts
  induction ts with
  | nil =>
    intro st cnt st' cnt' h hinv
    simp only [tablesLoop, Option.some.injEq, Prod.mk.injEq] at h
    rw [← h.1]
    exact hinv
  | cons raw rest ih =>
    intro st cnt st' cnt' h hinv
    simp only [tablesLoop] at h
    by_cases hdeg : degenerateGrid (clean_table_data raw) = true
    · rw [if_pos hdeg] at h
      exact ih st cnt st' cnt' h hinv
    · rw [if_neg hdeg] at h
      cases hu : uniqueLoop (st.sheets.map Prod.fst)
          (sanitize_sheet_name ("p" ++ pyStrNat pageIdx ++ "_tbl" ++ pyStrNat (cnt + 1))) fuel 2
          (sanitize_sheet_name ("p" ++ pyStrNat pageIdx ++ "_tbl" ++ pyStrNat (cnt + 1))) with
      | none => rw [hu] at h; cases h
      | some sheet =>
        rw [hu] at h
        refine ih _ (cnt + 1) st' cnt' h ?_
        simp only [List.length_append, List.length_cons, List.length_nil]
        omega

/-- One page step preserves the one-sheet-per-table invariant. -/
theorem pageStep_inv (pyFloat : String → Bool) (fuel pageIdx : Nat) (page : PdfPage)
    (st st' : ConvSt) (h : pageStep pyFloat fuel pageIdx page st = some st')
    (hinv : st.sheets.length = st.tables_found) : st'.sheets.length = st'.tables_found := by
  unfold pageStep at h
  cases ht : tablesLoop pyFloat fuel pageIdx (pageTables page) st 0 with
  | none => rw [ht] at h; cases h
  | some pair =>
    obtain ⟨st1, cnt⟩ := pair
    rw [ht] at h
    dsimp only at h
    have hinv1 : st1.sheets.length = st1.tables_found :=
      tablesLoop_inv pyFloat fuel pageIdx (pageTables page) st 0 st1 cnt ht hinv
    by_cases hc : cnt = 0
    · rw [if_pos hc] at h
      have h2 := Option.some.inj h
      rw [← h2]
      by_cases hls : looks_scanned page = true <;> simp [hls, hinv1]
    · rw [if_neg hc] at h
      have h2 := Option.some.inj h
      rw [← h2]
      exact hinv1

/-- The page loop preserves the one-sheet-per-table invariant. -/
theorem pageLoop_inv (pyFloat : String → Bool) (fuel : Nat) :
    ∀ (pages : List PdfPage) (idx : Nat) (st st' : ConvSt),
      pageLoop pyFloat fuel pages idx st = some st' →
      st.sheets.length = st.tables_found → st'.sheets.length = st'.tables_found := by
  intro pages
  induction pages with
  | nil =>
    intro idx st st' h hinv
    have h2 := Option.some.inj h
    rw [← h2]
    exact hinv
  | cons page rest ih =>
    intro idx st st' h hinv
    simp only [pageLoop] at h
    cases hs : pageStep pyFloat fuel idx page st with
    | none => rw [hs] at h; cases h
    | some st1 =>
      rw [hs] at h
      exact ih (idx + 1) st1 st' h (pageStep_inv pyFloat fuel idx page st st1 hs hinv)

/-- A page whose cleaned tables are all noise is skipped without touching
the state or the page's table count. -/
theorem tablesLoop_skip (pyFloat : String → Bool) (fuel pageIdx : Nat) :
    ∀ (ts : List (List (List Cell))) (st : ConvSt) (cnt : Nat),
      (∀ t ∈ ts, degenerateGrid (clean_table_data t) = true) →
      tablesLoop pyFloat fuel pageIdx ts st cnt = some (st, cnt) := by
  intro ts
  induction ts with
  | nil => intro st cnt _; rfl
  | cons raw rest ih =>
    intro st cnt h
    simp only [tablesLoop]
    rw [if_pos (h raw (List.mem_cons_self raw rest))]
    exact ih st cnt (fun t ht => h t (List.mem_cons_of_mem raw ht))

/-- A page with no surviving table, no strippable text and no scan flag
leaves the converter state untouched. -/
theorem pageStep_blank (pyFloat : String → Bool) (fuel pageIdx : Nat) (page : PdfPage)
    (h1 : ∀ t ∈ pageTables page, degenerateGrid (clean_table_data t) = true)
    (h2 : pyStrip (pageText page).data = []) (h3 : looks_scanned page = false) :
    ∀ st : ConvSt, pageStep pyFloat fuel pageIdx page st = some st := by
  intro st
  obtain ⟨sh, oc, tf, tr⟩ := st
  have htl : textLines pageIdx (pageText page) = [] := by
    unfold textLines
    rw [if_pos h2]
  unfold pageStep
  rw [tablesLoop_skip pyFloat fuel pageIdx (pageTables page) _ 0 h1, htl]
  dsimp only
  rw [List.append_nil, h3]
  rfl

/-- A document of such blank pages leaves the state untouched. -/
theorem pageLoop_blank (pyFloat : String → Bool) (fuel : Nat) :
    ∀ (pages : List PdfPage),
      (∀ page ∈ pages, (∀ t ∈ pageTables page, degenerateGrid (clean_table_data t) = true) ∧
        pyStrip (pageText page).data = [] ∧ looks_scanned page = false) →
      ∀ (idx : Nat) (st : ConvSt), pageLoop pyFloat fuel pages idx st = some st := by
  intro pages
  induction pages with
  | nil => intro _ idx st; rfl
  | cons page rest ih =>
    intro h idx st
    have hp := h page (List.mem_cons_self page rest)
    simp only [pageLoop]
    rw [pageStep_blank pyFloat fuel idx page hp.1 hp.2.1 hp.2.2 st]
    exact ih (fun q hq => h q (List.mem_cons_of_mem page hq)) (idx + 1) st

/-- Finalization always leaves at least one sheet. -/
theorem finalize_ne_nil (st : ConvSt) (hinv : st.sheets.length = st.tables_found) :
    finalizeSheets st ≠ [] := by
  simp only [finalizeSheets]
  by_cases hoc : st.ocr_pages ≠ []
  · rw [if_pos hoc]
    exact List.append_ne_nil_of_right_ne_nil _ (by simp)
  · rw [if_neg hoc]
    by_cases h0 : st.tables_found = 0
    · rw [if_pos h0]
      by_cases htr : st.text_rows ≠ []
      · rw [if_pos htr]
        exact List.append_ne_nil_of_right_ne_nil _ (by simp)
      · rw [if_neg htr]
        exact List.append_ne_nil_of_right_ne_nil _ (by simp)
    · rw [if_neg h0]
      intro hc
      rw [hc] at hinv
      simp only [List.length_nil] at hinv
      exact h0 hinv.symm

/-- Finalization of a run that produced no table sheet: the Text sheet,
then the Info sheet exactly when scan flags were recorded. -/
theorem finalize_of_no_tables (st : ConvSt) (hsheets : st.sheets = [])
    (h0 : st.tables_found = 0) :
    finalizeSheets st =
      ("Text", SheetData.text (if st.text_rows = [] then [placeholderRow]
        else st.text_rows.map (fun r => (some r.1, r.2)))) ::
      (if st.ocr_pages = [] then [] else [("Info", infoSheet st.ocr_pages)]) := by
  simp only [finalizeSheets]
  rw [if_pos h0, hsheets]
  by_cases htr : st.text_rows = []
  · rw [if_neg (not_not_intro htr), if_pos htr]
    by_cases hoc : st.ocr_pages = []
    · rw [if_neg (not_not_intro hoc), if_pos hoc]
      rfl
    · rw [if_pos hoc, if_neg hoc]
      rfl
  · rw [if_pos htr, if_neg htr]
    by_cases hoc : st.ocr_pages = []
    · rw [if_neg (not_not_intro hoc), if_pos hoc]
      rfl
    · rw [if_pos hoc, if_neg hoc]
      rfl

/-- Claim C3: a conversion that completes always contains at least one
sheet; when no table sheet was produced across the whole document the
result is a single Text sheet holding the accumulated text rows — or the
placeholder row when there are none — followed only by the optional Info
sheet; and a document all of whose pages yield no surviving table, no
strippable text and no scan flag produces exactly the placeholder Text
sheet. -/
theorem convert_fallback_guarantee :
    (∀ (pyFloat : String → Bool) (fuel : Nat) (pages : List PdfPage)
        (result : List (String × SheetData)),
      convert_pdf_to_excel_bytes pyFloat fuel pages = some result → result ≠ []) ∧
    (∀ (pyFloat : String → Bool) (fuel : Nat) (pages : List PdfPage) (st : ConvSt),
      pageLoop pyFloat fuel pages 1 initSt = some st → st.tables_found = 0 →
      convert_pdf_to_excel_bytes pyFloat fuel pages =
        some (("Text", SheetData.text (if st.text_rows = [] then [placeholderRow]
            else st.text_rows.map (fun r => (some r.1, r.2)))) ::
          (if st.ocr_pages = [] then [] else [("Info", infoSheet st.ocr_pages)]))) ∧
    (∀ (pyFloat : String → Bool) (fuel : Nat) (pages : List PdfPage),
      (∀ page ∈ pages, (∀ t ∈ pageTables page, degenerateGrid (clean_table_data t) = true) ∧
        pyStrip (pageText page).data = [] ∧ looks_scanned page = false) →
      convert_pdf_to_excel_bytes pyFloat fuel pages =
        some [("Text", SheetData.text [placeholderRow])]) := by
  refine ⟨?_, ?_, ?_⟩
  · intro pyFloat fuel pages result h
    unfold convert_pdf_to_excel_bytes at h
    cases hp : pageLoop pyFloat fuel pages 1 initSt with
    | none => rw [hp] at h; cases h
    | some st =>
      rw [hp] at h
      have hres := Option.some.inj h
      rw [← hres]
      exact finalize_ne_nil st (pageLoop_inv pyFloat fuel pages 1 initSt st hp rfl)
  · intro pyFloat fuel pages st hp h0
    have hinv := pageLoop_inv pyFloat fuel pages 1 initSt st hp rfl
    have hsheets : st.sheets = [] := by
      rw [h0] at hinv
      exact List.length_eq_zero.mp hinv
    unfold convert_pdf_to_excel_bytes
    rw [hp]
    dsimp only
    rw [finalize_of_no_tables st hsheets h0]
  · intro pyFloat fuel pages hblank
    unfold convert_pdf_to_excel_bytes
    rw [pageLoop_blank pyFloat fuel pages hblank 1 initSt]
    rfl

/-- Witness for C3: a one-page document with no tables, no text and no
scan flag converts to exactly the placeholder Text sheet. -/
theorem convert_fallback_guarantee_witness :
    convert_pdf_to_excel_bytes (fun _ => false) 0
        [⟨PyRes.ok [], PyRes.err, PyRes.ok "", PyRes.ok ["w"], PyRes.ok []⟩] =
      some [("Text", SheetData.text [placeholderRow])] :=
  convert_fallback_guarantee.2.2 (fun _ => false) 0
    [⟨PyRes.ok [], PyRes.err, PyRes.ok "", PyRes.ok ["w"], PyRes.ok []⟩] (by decide)

/-! The three-page scenario: claim C4. -/

/-- A concrete sample of the external float parser for the scenario's
cell values: exactly the numeric literals appearing in the demo tables
parse as floats. -/
def demoFloat : String → Bool := fun s => decide (s ∈ ["1", "2", "3", "5", "7", "8"])

/-- Scenario page 1: two raw tables, both surviving normalization. -/
def demoPage1 : PdfPage :=
  ⟨PyRes.ok [[[some "Name", some "Qty"], [some "Apple", some "3"], [some "Pear", some "5"]],
    [[some "A", some "B"], [some "1", some "2"]]], PyRes.err, PyRes.ok "", PyRes.ok ["w"],
    PyRes.ok []⟩

/-- Scenario page 2: one raw table, surviving normalization. -/
def demoPage2 : PdfPage :=
  ⟨PyRes.ok [[[some "X", some "Y"], [some "7", some "8"]]], PyRes.err, PyRes.ok "",
    PyRes.ok ["w"], PyRes.ok []⟩

/-- Scenario page 3: no tables, pure narrative text, not scanned. -/
def demoPage3 : PdfPage :=
  ⟨PyRes.ok [], PyRes.err, PyRes.ok "First line.\nSecond line.", PyRes.ok ["w"], PyRes.ok []⟩

/-- The scenario document of claim C4. -/
def demoDoc : List PdfPage := [demoPage1, demoPage2, demoPage3]

/-- Counterexample to claim C4 as stated: the scenario document yields
the three table sheets only — no "Text" sheet is emitted, because the
document produced tables and the text fallback sheet is only written
when the whole document produced none. -/
theorem convert_demo_c4_cex :
    (convert_pdf_to_excel_bytes demoFloat 1 demoDoc).map (fun l => l.map Prod.fst) =
      some ["p1_tbl1", "p1_tbl2", "p2_tbl1"] := by decide

/-- Claim C4 as amended: the scenario document produces exactly the
sheets `p1_tbl1`, `p1_tbl2`, `p2_tbl1`; page 3's lines are collected as
text rows but, since tables were found in the document, no Text sheet is
emitted. -/
theorem convert_demo_c4_amended :
    convert_pdf_to_excel_bytes demoFloat 1 demoDoc =
      some [("p1_tbl1", SheetData.table (some ["Name", "Qty"])
              [[some "Apple", some "3"], [some "Pear", some "5"]]),
            ("p1_tbl2", SheetData.table (some ["A", "B"]) [[some "1", some "2"]]),
            ("p2_tbl1", SheetData.table (some ["X", "Y"]) [[some "7", some "8"]])] ∧
    (pageLoop demoFloat 1 demoDoc 1 initSt).map ConvSt.text_rows =
      some [(3, "First line."), (3, "Second line.")] := by
  constructor
  · decide
  · decide
